import Mathlib

/-!
Verification of the flag-dispensations alert pipeline
(`src/alerts/flag_dispensations_alert.py`).

The Python module is shallowly embedded as follows.

* pandas datetime values are modelled by their internal `i8` integer
  (microseconds since the Unix epoch).  A tz-naive column stores wall-clock
  microseconds; a tz-aware column stores UTC microseconds together with a
  display offset.  `tz_localize('UTC')` declares naive wall values to be UTC
  (the stored integers are unchanged) and `tz_convert` changes only the
  display offset, never the stored instants.  IANA zones are abstracted as
  fixed UTC offsets (in microseconds).
* A DataFrame is a list of rows plus the tz state of its `created_at`
  column; `filter_data` returns the mutated input frame (the Python code
  assigns back into `df` in place) together with the filtered, formatted
  output rows.
* A row handed to `get_tracking_key` is a pandas Series, modelled by an
  association list from column names to Python values; a missing column
  raises `KeyError`, modelled by `Except.error` carrying the missing name and
  the available columns (which the source logs before re-raising).
* Python's `str()` of an `int` is modelled by an executable decimal
  renderer, `in` on strings by list-infix of the character data, `rstrip`
  by `dropRightWhile`, and `list(set(...))` (whose order is unspecified) by
  a `Finset`.
-/

namespace FlagDispensations

/-! ## Python string primitives -/

/-- Python `str.lower()` (ASCII case folding suffices for the data here). -/
def pyLower (s : String) : String := String.mk (s.data.map Char.toLower)

/-- Python `needle in hay` substring membership. -/
def pyIn (needle hay : String) : Prop := needle.data <:+: hay.data

instance (needle hay : String) : Decidable (pyIn needle hay) :=
  inferInstanceAs (Decidable (needle.data <:+: hay.data))

/-- Python `s.rstrip('/')`: drop every trailing slash. -/
def rstripSlash (s : String) : String :=
  String.mk ((s.data.reverse.dropWhile (fun c => c = '/')).reverse)

/-! ## Python `str(int)` : decimal rendering

`digitsRevAux` is a fuel-based (hence structurally recursive and
kernel-evaluable) version of `Nat.digits 10`, least-significant digit
first. -/

def digitsRevAux : Nat → Nat → List Nat
  | _, 0 => []
  | 0, _ + 1 => []
  | fuel + 1, n + 1 => (n + 1) % 10 :: digitsRevAux fuel ((n + 1) / 10)

/-- Decimal digits of `n`, least-significant first (`n` itself is enough fuel). -/
def digitsRev (n : Nat) : List Nat := digitsRevAux n n

/-- The character of a decimal digit. -/
def digitCh (d : Nat) : Char := Char.ofNat (48 + d)

/-- The character data of Python `str(n)` for a natural number. -/
def natReprChars (n : Nat) : List Char :=
  if n = 0 then [('0')] else ((digitsRev n).map digitCh).reverse

/-- Python `str(v)` for an integer. -/
def pyIntRepr (v : Int) : String :=
  if v < 0 then String.mk ('-' :: natReprChars v.natAbs)
  else String.mk (natReprChars v.natAbs)

theorem digitsRevAux_eq_digits (fuel : Nat) :
    ∀ n : Nat, n ≤ fuel → digitsRevAux fuel n = Nat.digits 10 n := by
  induction fuel with
  | zero =>
      intro n hn
      have : n = 0 := Nat.le_zero.mp hn
      subst this
      simp [digitsRevAux]
  | succ f ih =>
      intro n hn
      cases n with
      | zero => simp [digitsRevAux]
      | succ m =>
          have hdiv : (m + 1) / 10 ≤ f := by
            have := Nat.div_lt_self (Nat.succ_pos m) (by norm_num : 1 < 10)
            omega
          show (m + 1) % 10 :: digitsRevAux f ((m + 1) / 10) = Nat.digits 10 (m + 1)
          rw [ih _ hdiv]
          exact (Nat.digits_def' (by norm_num : 1 < 10) (Nat.succ_pos m)).symm

theorem digitsRev_eq_digits (n : Nat) : digitsRev n = Nat.digits 10 n :=
  digitsRevAux_eq_digits n n le_rfl

theorem digitCh_toNat {d : Nat} (h : d < 10) : (digitCh d).toNat = 48 + d := by
  interval_cases d <;> decide

/-- Digit extraction, a left inverse of `digitCh` on decimal digits. -/
def undigit (c : Char) : Nat := c.toNat - 48

theorem undigit_digitCh {d : Nat} (h : d < 10) : undigit (digitCh d) = d := by
  unfold undigit
  rw [digitCh_toNat h]
  omega

theorem map_undigit_digitCh (l : List Nat) (h : ∀ d ∈ l, d < 10) :
    (l.map digitCh).map undigit = l := by
  induction l with
  | nil => rfl
  | cons d t ih =>
      have hd : d < 10 := h d (List.mem_cons_self d t)
      have ht : ∀ x ∈ t, x < 10 := fun x hx => h x (List.mem_cons_of_mem d hx)
      simp [undigit_digitCh hd, ih ht]

theorem natReprChars_digit {n : Nat} {c : Char} (hc : c ∈ natReprChars n) :
    48 ≤ c.toNat ∧ c.toNat ≤ 57 := by
  unfold natReprChars at hc
  by_cases h0 : n = 0
  · simp [h0] at hc
    subst hc
    decide
  · simp [h0] at hc
    obtain ⟨d, hd, rfl⟩ := hc
    rw [digitsRev_eq_digits] at hd
    have hlt : d < 10 := Nat.digits_lt_base (by norm_num) hd
    rw [digitCh_toNat hlt]
    omega

theorem natReprChars_ne_nil (n : Nat) : natReprChars n ≠ [] := by
  unfold natReprChars
  by_cases h0 : n = 0
  · simp [h0]
  · simp [h0, digitsRev_eq_digits, Nat.digits_ne_nil_iff_ne_zero]

theorem natReprChars_inj {m n : Nat} (h : natReprChars m = natReprChars n) :
    m = n := by
  unfold natReprChars at h
  by_cases hm : m = 0 <;> by_cases hn : n = 0
  · omega
  · exfalso
    simp [hm, hn] at h
    have h2 : (((digitsRev n).map digitCh).reverse).map undigit = [0] := by
      rw [← h]
      decide
    rw [← List.map_reverse] at h2
    rw [digitsRev_eq_digits] at h2
    have hlt : ∀ d ∈ (Nat.digits 10 n).reverse, d < 10 := by
      intro d hd
      exact Nat.digits_lt_base (by norm_num) (List.mem_reverse.mp hd)
    rw [map_undigit_digitCh _ hlt] at h2
    have hdig : Nat.digits 10 n = [0] := by
      have := congrArg List.reverse h2
      simpa using this
    have := Nat.ofDigits_digits 10 n
    rw [hdig] at this
    simp [Nat.ofDigits] at this
    omega
  · exfalso
    simp [hm, hn] at h
    have h2 : (((digitsRev m).map digitCh).reverse).map undigit = [0] := by
      rw [h]
      decide
    rw [← List.map_reverse] at h2
    rw [digitsRev_eq_digits] at h2
    have hlt : ∀ d ∈ (Nat.digits 10 m).reverse, d < 10 := by
      intro d hd
      exact Nat.digits_lt_base (by norm_num) (List.mem_reverse.mp hd)
    rw [map_undigit_digitCh _ hlt] at h2
    have hdig : Nat.digits 10 m = [0] := by
      have := congrArg List.reverse h2
      simpa using this
    have := Nat.ofDigits_digits 10 m
    rw [hdig] at this
    simp [Nat.ofDigits] at this
    omega
  · simp [hm, hn, digitsRev_eq_digits, List.reverse_inj] at h
    have hmlt : ∀ d ∈ Nat.digits 10 m, d < 10 :=
      fun d hd => Nat.digits_lt_base (by norm_num) hd
    have hnlt : ∀ d ∈ Nat.digits 10 n, d < 10 :=
      fun d hd => Nat.digits_lt_base (by norm_num) hd
    have : Nat.digits 10 m = Nat.digits 10 n := by
      calc Nat.digits 10 m
          = ((Nat.digits 10 m).map digitCh).map undigit :=
            (map_undigit_digitCh _ hmlt).symm
        _ = ((Nat.digits 10 n).map digitCh).map undigit := by rw [h]
        _ = Nat.digits 10 n := map_undigit_digitCh _ hnlt
    calc m = Nat.ofDigits 10 (Nat.digits 10 m) := (Nat.ofDigits_digits 10 m).symm
      _ = Nat.ofDigits 10 (Nat.digits 10 n) := by rw [this]
      _ = n := Nat.ofDigits_digits 10 n

theorem pyIntRepr_chars {v : Int} {c : Char} (hc : c ∈ (pyIntRepr v).data) :
    c = '-' ∨ (48 ≤ c.toNat ∧ c.toNat ≤ 57) := by
  unfold pyIntRepr at hc
  by_cases hv : v < 0
  · simp [hv] at hc
    rcases hc with hc | hc
    · exact Or.inl hc
    · exact Or.inr (natReprChars_digit hc)
  · simp [hv] at hc
    exact Or.inr (natReprChars_digit hc)

theorem pyIntRepr_inj {v w : Int} (h : pyIntRepr v = pyIntRepr w) : v = w := by
  have hd := congrArg String.data h
  unfold pyIntRepr at hd
  by_cases hv : v < 0 <;> by_cases hw : w < 0
  · simp [hv, hw] at hd
    have := natReprChars_inj hd
    omega
  · exfalso
    simp [hv, hw] at hd
    rcases hL : natReprChars w.natAbs with _ | ⟨c, rest⟩
    · exact natReprChars_ne_nil w.natAbs hL
    · rw [hL] at hd
      have hc : c ∈ natReprChars w.natAbs := by
        rw [hL]; exact List.mem_cons_self c rest
      have := natReprChars_digit hc
      have hminus : ('-' : Char) = c := by
        injection hd
      have : ('-' : Char).toNat = c.toNat := congrArg Char.toNat hminus
      simp at this
      omega
  · exfalso
    simp [hv, hw] at hd
    rcases hL : natReprChars v.natAbs with _ | ⟨c, rest⟩
    · exact natReprChars_ne_nil v.natAbs hL
    · rw [hL] at hd
      have hc : c ∈ natReprChars v.natAbs := by
        rw [hL]; exact List.mem_cons_self c rest
      have := natReprChars_digit hc
      have hminus : c = ('-' : Char) := by
        injection hd
      have : c.toNat = ('-' : Char).toNat := congrArg Char.toNat hminus
      simp at this
      omega
  · simp [hv, hw] at hd
    have := natReprChars_inj hd
    omega

/-! ## Splitting on a separator whose head does not occur in the prefixes -/

theorem append_sep_inj {c : Char} {sep : List Char} (hsep : sep.head? = some c) :
    ∀ (a1 : List Char), (∀ x ∈ a1, x ≠ c) →
    ∀ (a2 : List Char), (∀ x ∈ a2, x ≠ c) →
    ∀ (b1 b2 : List Char), a1 ++ sep ++ b1 = a2 ++ sep ++ b2 →
    a1 = a2 ∧ b1 = b2 := by
  intro a1
  induction a1 with
  | nil =>
      intro _ a2 ha2 b1 b2 heq
      cases a2 with
      | nil =>
          refine ⟨rfl, ?_⟩
          simpa using heq
      | cons y a2' =>
          exfalso
          cases sep with
          | nil => simp at hsep
          | cons s stail =>
              have hs : s = c := by
                have := hsep
                simp at this
                exact this
              simp only [List.nil_append, List.cons_append, List.cons.injEq] at heq
              exact ha2 y (List.mem_cons_self y a2') (by rw [← heq.1, hs])
  | cons x a1' ih =>
      intro ha1 a2 ha2 b1 b2 heq
      cases a2 with
      | nil =>
          exfalso
          cases sep with
          | nil => simp at hsep
          | cons s stail =>
              have hs : s = c := by
                have := hsep
                simp at this
                exact this
              simp only [List.nil_append, List.cons_append, List.cons.injEq] at heq
              exact ha1 x (List.mem_cons_self x a1') (by rw [heq.1, hs])
      | cons y a2' =>
          simp only [List.cons_append, List.cons.injEq] at heq
          obtain ⟨hxy, htail⟩ := heq
          have ha1' : ∀ z ∈ a1', z ≠ c :=
            fun z hz => ha1 z (List.mem_cons_of_mem x hz)
          have ha2' : ∀ z ∈ a2', z ≠ c :=
            fun z hz => ha2 z (List.mem_cons_of_mem y hz)
          obtain ⟨h1, h2⟩ := ih ha1' a2' ha2' b1 b2 htail
          exact ⟨by rw [hxy, h1], h2⟩

/-! ## Tracking key generation (`get_tracking_key`) -/

/-- A Python value held in a pandas Series cell. -/
inductive PyVal where
  | i : Int → PyVal
  | s : String → PyVal
deriving DecidableEq

/-- Python `str()` as applied by an f-string. -/
def pyStr : PyVal → String
  | PyVal.i n => pyIntRepr n
  | PyVal.s s => s

/-- A pandas Series row: ordered association of column names to values. -/
def PyRow : Type := List (String × PyVal)

instance : DecidableEq PyRow := inferInstanceAs (DecidableEq (List (String × PyVal)))

/-- Lookup `row[key]`, returning `none` where Python raises `KeyError`. -/
def pyGet : PyRow → String → Option PyVal
  | [], _ => Option.none
  | (k, v) :: rest, key => if k = key then some v else pyGet rest key

/-- The row's column labels, Python `list(row.index)`. -/
def rowColumns (row : PyRow) : List String := row.map (fun e => e.1)

/-- The error raised on a missing column: the `KeyError` names the missing
field and the handler logs the available columns before re-raising. -/
structure MissingFieldError where
  missing : String
  available : List String
deriving DecidableEq

/-- The key-format helper: the f-string of `get_tracking_key`. -/
def trackingKey (vessel_id job_id : PyVal) : String :=
  ("vessel_id_") ++ pyStr vessel_id ++ ("__job_id_") ++ pyStr job_id

/-- Model of `FlagDispensationsAlert.get_tracking_key`: reads `vessel_id` and
`job_id` and formats the key; a missing column aborts with the error. -/
def get_tracking_key (row : PyRow) : Except MissingFieldError String :=
  match pyGet row ("vessel_id") with
  | Option.none => Except.error ⟨("vessel_id"), rowColumns row⟩
  | some vessel_id =>
    match pyGet row ("job_id") with
    | Option.none => Except.error ⟨("job_id"), rowColumns row⟩
    | some job_id => Except.ok (trackingKey vessel_id job_id)

/-! ## Configuration -/

/-- The recognized configuration surface (`AlertConfig` fields this alert
reads).  The IANA `timezone` is abstracted as a fixed UTC offset in
microseconds; `email_routing` maps a domain substring to its CC list
(the `{cc: [...]}` payload). -/
structure AlertConfig where
  lookback_days : Int
  tzOffset : Int
  enable_links : Bool
  base_url : String
  url_path : String
  email_routing : List (String × List String)
  internal_recipients : List String
deriving DecidableEq

/-! ## DataFrame model -/

/-- One fetched event row.  Datetime-valued cells carry the pandas `i8`
microsecond value (`Option` marks SQL NULL / unparsable, which
`pd.to_datetime(..., errors='coerce')` turns into `NaT`); null-able
categorical cells are `Option String`. -/
structure RawRow where
  vsl_email : String
  vessel_id : Int
  vessel : String
  job_id : Int
  importance : Option String
  title : String
  dispensation_type : Option String
  department : Option String
  due_date : Option Int
  requested_on : Option Int
  created_at : Int
  status : String
deriving DecidableEq

/-- A fetched table: the rows plus the tz state of the `created_at` column
(`none` = tz-naive, `some off` = tz-aware displayed at UTC offset `off`).
The `i8` values stored in `created_at` are wall-clock microseconds when
naive and UTC microseconds when aware. -/
structure DataFrame where
  createdAtTz : Option Int
  rows : List RawRow
deriving DecidableEq

/-- The `created_at` column as a pandas datetime column. -/
structure DtColumn where
  tz : Option Int
  vals : List Int
deriving DecidableEq

/-- Model of `pd.to_datetime` on a column that already holds datetimes. -/
def pd_to_datetime (c : DtColumn) : DtColumn := c

/-- Model of `dt.tz_localize('UTC')`: declare naive wall-clock values to be UTC;
the stored microsecond values are unchanged. -/
def tz_localize_utc (c : DtColumn) : DtColumn := ⟨some 0, c.vals⟩

/-- Model of `dt.tz_convert(tz)`: change the display offset only; the stored UTC
microsecond instants are unchanged. -/
def tz_convert (off : Int) (c : DtColumn) : DtColumn := ⟨some off, c.vals⟩

def usecPerDay : Int := 86400000000

/-! ## Date formatting (`strftime`) -/

/-- Gregorian calendar date from a day count since 1970-01-01
(standard civil-from-days algorithm). -/
def civilFromDays (z0 : Int) : Int × Nat × Nat :=
  let z : Int := z0 + 719468
  let era : Int := z.fdiv 146097
  let doe : Nat := (z - era * 146097).toNat
  let yoe : Nat := (doe - doe / 1460 + doe / 36524 - doe / 146096) / 365
  let y : Int := (yoe : Int) + era * 400
  let doy : Nat := doe - (365 * yoe + yoe / 4 - yoe / 100)
  let mp : Nat := (5 * doy + 2) / 153
  let d : Nat := doy - (153 * mp + 2) / 5 + 1
  let m : Nat := if mp < 10 then mp + 3 else mp - 9
  (if m ≤ 2 then y + 1 else y, m, d)

/-- Left-pad a decimal rendering with zeros to width `w`. -/
def zfill (w : Nat) (s : String) : String :=
  String.mk (List.replicate (w - s.length) '0') ++ s

def pad2 (n : Nat) : String := zfill 2 (String.mk (natReprChars n))

def pad4 (y : Int) : String :=
  if y < 0 then ("-") ++ zfill 4 (String.mk (natReprChars y.natAbs))
  else zfill 4 (String.mk (natReprChars y.natAbs))

/-- Rendering `strftime('%Y-%m-%d %H:%M:%S')` of a wall-clock microsecond value. -/
def fmtDateTime (t : Int) : String :=
  let secs : Int := t.fdiv 1000000
  let days : Int := secs.fdiv 86400
  let sod : Nat := (secs - days * 86400).toNat
  let ymd := civilFromDays days
  pad4 ymd.1 ++ ("-") ++ pad2 ymd.2.1 ++ ("-") ++ pad2 ymd.2.2 ++ (" ") ++
    pad2 (sod / 3600) ++ (":") ++ pad2 (sod % 3600 / 60) ++ (":") ++ pad2 (sod % 60)

/-- Rendering `strftime('%Y-%m-%d')` of a wall-clock microsecond value. -/
def fmtDate (t : Int) : String :=
  let secs : Int := t.fdiv 1000000
  let days : Int := secs.fdiv 86400
  let ymd := civilFromDays days
  pad4 ymd.1 ++ ("-") ++ pad2 ymd.2.1 ++ ("-") ++ pad2 ymd.2.2

/-! ## filter_data -/

/-- A row of the filtered frame: dates re-formatted for display and the
null-able categoricals filled with the empty string. -/
structure OutRow where
  vsl_email : String
  vessel_id : Int
  vessel : String
  job_id : Int
  importance : String
  title : String
  dispensation_type : String
  department : String
  due_date : String
  requested_on : String
  created_at : String
  status : String
deriving DecidableEq

/-- The per-row effect of the display-formatting block of `filter_data`:
`created_at` is rendered at the target display offset (the column was just
converted there); `_format_date_column` renders `due_date`/`requested_on`
and turns `NaT` into the empty string; `fillna('')` clears the null-able
categoricals. -/
def fmtOutRow (off : Int) (r : RawRow) : OutRow :=
  { vsl_email := r.vsl_email
    vessel_id := r.vessel_id
    vessel := r.vessel
    job_id := r.job_id
    importance := r.importance.getD ("")
    title := r.title
    dispensation_type := r.dispensation_type.getD ("")
    department := r.department.getD ("")
    due_date := (r.due_date.map fmtDate).getD ("")
    requested_on := (r.requested_on.map fmtDate).getD ("")
    created_at := fmtDateTime (r.created_at + off)
    status := r.status }

/-- Model of `FlagDispensationsAlert.filter_data`.  Returns the input frame as the
code leaves it (the tz normalization assigns back into `df` in place) and
the filtered, display-formatted rows.  An empty frame short-circuits
untouched.  The recency cutoff is `now(tz) - lookback_days`, and the
comparison of aware timestamps is comparison of UTC instants. -/
def filter_data (cfg : AlertConfig) (nowUtc : Int) (df : DataFrame) :
    DataFrame × List OutRow :=
  if df.rows = [] then (df, [])
  else
    let c0 := pd_to_datetime ⟨df.createdAtTz, df.rows.map (fun r => r.created_at)⟩
    let c1 := match c0.tz with
      | Option.none => tz_convert cfg.tzOffset (tz_localize_utc c0)
      | some _ => tz_convert cfg.tzOffset c0
    let dfMutated : DataFrame := ⟨c1.tz, df.rows⟩
    let cutoff : Int := nowUtc - cfg.lookback_days * usecPerDay
    let kept := dfMutated.rows.filter (fun r => decide (cutoff ≤ r.created_at))
    (dfMutated, kept.map (fmtOutRow cfg.tzOffset))

/-! ## Recipient resolution and routing -/

/-- The domain scan of `_get_cc_recipients`: first configured domain that
occurs (lower-cased) inside the lowered address wins and stops the scan;
no match leaves the CC list empty. -/
def ccScan : List (String × List String) → String → List String
  | [], _ => []
  | (domain, cc) :: rest, lower =>
      if pyIn (pyLower domain) lower then cc else ccScan rest lower

/-- Model of `FlagDispensationsAlert._get_cc_recipients`.  The result of
`list(set(cc_list + internal_recipients))` has unspecified order, so it is
modelled as the finite set of addresses. -/
def _get_cc_recipients (cfg : AlertConfig) (vessel_email : String) : Finset String :=
  let lower := pyLower vessel_email
  let cc_list := ccScan cfg.email_routing lower
  (cc_list ++ cfg.internal_recipients).toFinset

/-- Model of `FlagDispensationsAlert._get_company_name`. -/
def _get_company_name (vessel_email : String) : String :=
  let lower := pyLower vessel_email
  if pyIn ("prominence") lower then ("Prominence Maritime S.A.")
  else if pyIn ("seatraders") lower then ("Sea Traders S.A.")
  else ("Prominence Maritime S.A.")

/-- Model of `FlagDispensationsAlert._get_url_links`. -/
def _get_url_links (cfg : AlertConfig) (link_id : Int) : Option String :=
  if ¬ cfg.enable_links then Option.none
  else
    let base_url := rstripSlash cfg.base_url
    let url_path := rstripSlash cfg.url_path
    some (base_url ++ url_path ++ ("/") ++ pyIntRepr link_id)

/-- A row inside a notification job: the formatted row plus the `url`
column, whose absence (links disabled) is `none`. -/
structure JobRow where
  row : OutRow
  url : Option String
deriving DecidableEq

/-- One notification job dictionary. -/
structure Job where
  recipients : List String
  cc_recipients : Finset String
  data : List JobRow
  vessel_id : Int
  vessel_name : String
  alert_title : String
  company_name : String
  display_columns : List String
deriving DecidableEq

/-- The static display-column list of `route_notifications`. -/
def display_columns_list : List String :=
  [("title"), ("dispensation_type"), ("department"),
   ("requested_on"), ("due_date"), ("created_at")]

/-- The groupby key: `(vsl_email, vessel)`. -/
def groupKey (r : OutRow) : String × String := (r.vsl_email, r.vessel)

/-- Distinct keys in order of first appearance, with an already-seen
accumulator (`df.groupby` yields one group per distinct key; group order
carries no claim weight, so first-appearance order stands in for pandas'
sorted group order). -/
def distinctKeysAux : List (String × String) → List (String × String) →
    List (String × String)
  | _, [] => []
  | seen, k :: rest =>
      if k ∈ seen then distinctKeysAux seen rest
      else k :: distinctKeysAux (k :: seen) rest

def distinctKeys (l : List (String × String)) : List (String × String) :=
  distinctKeysAux [] l

/-- The body of the `for (vessel_email, vessel_name), vessel_df in grouped`
loop: build one notification job for one group. -/
def mkJob (cfg : AlertConfig) (rows : List OutRow) (k : String × String) : Job :=
  let vessel_df := rows.filter (fun r => decide (groupKey r = k))
  let cc_recipients := _get_cc_recipients cfg k.1
  let data :=
    if cfg.enable_links then
      vessel_df.map (fun r => JobRow.mk r (_get_url_links cfg r.job_id))
    else
      vessel_df.map (fun r => JobRow.mk r Option.none)
  { recipients := [k.1]
    cc_recipients := cc_recipients
    data := data
    vessel_id := ((vessel_df.head?).map (fun r => r.vessel_id)).getD 0
    vessel_name := k.2
    alert_title := ("Flag Dispensations")
    company_name := _get_company_name k.1
    display_columns := display_columns_list }

/-- Model of `FlagDispensationsAlert.route_notifications`: one job per groupby
group, each group holding the filtered rows with its key in input order. -/
def route_notifications (cfg : AlertConfig) (rows : List OutRow) : List Job :=
  (distinctKeys (rows.map groupKey)).map (mkJob cfg rows)

/-! ## Helper lemmas -/

theorem pyIntRepr_no_underscore (v : Int) : ∀ x ∈ (pyIntRepr v).data, x ≠ '_' := by
  intro x hx hxe
  rcases pyIntRepr_chars hx with h | h
  · subst hxe
    exact absurd h (by decide)
  · subst hxe
    have h95 : ('_' : Char).toNat = 95 := by decide
    omega

theorem trackingKey_int_inj {v j v' j' : Int}
    (h : trackingKey (PyVal.i v) (PyVal.i j) = trackingKey (PyVal.i v') (PyVal.i j')) :
    v = v' ∧ j = j' := by
  have h0 := congrArg String.data h
  simp only [trackingKey, pyStr, String.data_append, List.append_assoc] at h0
  have h1 := List.append_cancel_left h0
  have h2 : (pyIntRepr v).data ++ ("__job_id_").data ++ (pyIntRepr j).data =
      (pyIntRepr v').data ++ ("__job_id_").data ++ (pyIntRepr j').data := by
    simpa [List.append_assoc] using h1
  have hsep : (("__job_id_") : String).data.head? = some '_' := by decide
  obtain ⟨hv, hj⟩ := append_sep_inj hsep _ (pyIntRepr_no_underscore v) _
    (pyIntRepr_no_underscore v') _ _ h2
  exact ⟨pyIntRepr_inj (String.ext hv), pyIntRepr_inj (String.ext hj)⟩

theorem ccScan_first_match (lower : String) (d : String) (cc : List String) :
    ∀ (pre : List (String × List String)) (post : List (String × List String)),
    (∀ p ∈ pre, ¬ pyIn (pyLower p.1) lower) → pyIn (pyLower d) lower →
    ccScan (pre ++ (d, cc) :: post) lower = cc := by
  intro pre
  induction pre with
  | nil =>
      intro post _ hd
      simp [ccScan, hd]
  | cons q t ih =>
      intro post hpre hd
      cases q with
      | mk q1 q2 =>
          have hq : ¬ pyIn (pyLower q1) lower :=
            hpre (q1, q2) (List.mem_cons_self _ t)
          have ht : ∀ p ∈ t, ¬ pyIn (pyLower p.1) lower :=
            fun p hp => hpre p (List.mem_cons_of_mem _ hp)
          simp only [List.cons_append, ccScan, if_neg hq]
          exact ih post ht hd

theorem ccScan_no_match (lower : String) :
    ∀ routing : List (String × List String),
    (∀ p ∈ routing, ¬ pyIn (pyLower p.1) lower) → ccScan routing lower = [] := by
  intro routing
  induction routing with
  | nil => intro _; rfl
  | cons q t ih =>
      intro h
      cases q with
      | mk q1 q2 =>
          have hq : ¬ pyIn (pyLower q1) lower := h (q1, q2) (List.mem_cons_self _ t)
          have ht : ∀ p ∈ t, ¬ pyIn (pyLower p.1) lower :=
            fun p hp => h p (List.mem_cons_of_mem _ hp)
          simp only [ccScan, if_neg hq]
          exact ih ht

theorem mem_distinctKeysAux (x : String × String) :
    ∀ (l seen : List (String × String)),
    (x ∈ distinctKeysAux seen l ↔ x ∈ l ∧ x ∉ seen) := by
  intro l
  induction l with
  | nil => intro seen; simp [distinctKeysAux]
  | cons k rest ih =>
      intro seen
      by_cases hk : k ∈ seen
      · simp only [distinctKeysAux, if_pos hk, ih]
        constructor
        · intro ⟨h1, h2⟩
          exact ⟨List.mem_cons_of_mem k h1, h2⟩
        · rintro ⟨h1, h2⟩
          rcases List.mem_cons.mp h1 with rfl | h1
          · exact absurd hk h2
          · exact ⟨h1, h2⟩
      · simp only [distinctKeysAux, if_neg hk, List.mem_cons, ih]
        constructor
        · rintro (rfl | ⟨h1, h2⟩)
          · exact ⟨Or.inl rfl, hk⟩
          · exact ⟨Or.inr h1, fun hx => h2 (Or.inr hx)⟩
        · rintro ⟨rfl | h1, h2⟩
          · exact Or.inl rfl
          · by_cases hxk : x = k
            · exact Or.inl hxk
            · exact Or.inr ⟨h1, fun hx => hx.elim hxk h2⟩

theorem nodup_distinctKeysAux :
    ∀ (l seen : List (String × String)), (distinctKeysAux seen l).Nodup := by
  intro l
  induction l with
  | nil => intro seen; simp [distinctKeysAux]
  | cons k rest ih =>
      intro seen
      by_cases hk : k ∈ seen
      · simpa [distinctKeysAux, if_pos hk] using ih seen
      · simp only [distinctKeysAux, if_neg hk]
        refine List.nodup_cons.mpr ⟨?_, ih (k :: seen)⟩
        intro hmem
        exact ((mem_distinctKeysAux k rest (k :: seen)).mp hmem).2
          (List.mem_cons_self k seen)

theorem mem_distinctKeys (x : String × String) (l : List (String × String)) :
    x ∈ distinctKeys l ↔ x ∈ l := by
  unfold distinctKeys
  rw [mem_distinctKeysAux]
  simp

theorem nodup_distinctKeys (l : List (String × String)) :
    (distinctKeys l).Nodup :=
  nodup_distinctKeysAux l []

theorem map_row_comp (g : OutRow → Option String) :
    ∀ l : List OutRow, l.map (JobRow.row ∘ fun r => JobRow.mk r (g r)) = l := by
  intro l
  induction l with
  | nil => rfl
  | cons a t ih =>
      show JobRow.row (JobRow.mk a (g a)) :: t.map _ = a :: t
      rw [ih]

theorem filter_of_map {α β : Type} (f : α → β) (p : β → Bool) :
    ∀ l : List α, (l.map f).filter p = (l.filter (fun x => p (f x))).map f := by
  intro l
  induction l with
  | nil => rfl
  | cons a t ih =>
      by_cases h : p (f a)
      · simp only [List.map_cons, List.filter_cons, h, if_pos, ih]
      · simp only [List.map_cons, List.filter_cons, h, ih]
        simp

theorem filter_eq_singleton_of_nodup (a : String × String) :
    ∀ l : List (String × String), l.Nodup → a ∈ l →
    l.filter (fun x => decide (x = a)) = [a] := by
  intro l
  induction l with
  | nil => intro _ ha; exact absurd ha (List.not_mem_nil a)
  | cons b t ih =>
      intro hnd ha
      obtain ⟨hbt, hndt⟩ := List.nodup_cons.mp hnd
      rcases List.mem_cons.mp ha with rfl | hat
      · have ht : t.filter (fun x => decide (x = a)) = [] := by
          rw [List.filter_eq_nil_iff]
          intro x hx
          simp only [decide_eq_true_eq]
          intro hxa
          exact hbt (hxa ▸ hx)
        simp [List.filter_cons, ht]
      · have hba : ¬ (b = a) := fun hba => hbt (hba ▸ hat)
        simp [List.filter_cons, hba, ih hndt hat]

/-! ## Example fixtures -/

/-- The routing/internal configuration from the spec's CC-resolution
example, with the target timezone at UTC+2. -/
def cfgSea : AlertConfig :=
  ⟨3, 7200000000, false, (""), (""),
   [(("seatraders.com"), [("a@x")])], [("b@y")]⟩

/-- A configuration with link generation enabled, from the spec's link
example. -/
def cfgLinks : AlertConfig :=
  ⟨3, 0, true, ("https://h"), ("/jobs/x"), [], []⟩

/-- A sample fetched row created at 2024-01-01T00:00:00Z. -/
def rowJan1 : RawRow :=
  ⟨("master@seatraders.com"), 7, ("MV Test"), 123, some ("High"),
   ("Renew dispensation"), some ("Extension"), Option.none,
   some 1706745600000000, Option.none, 1704067200000000, ("open")⟩

/-! ## Claims -/

/-- Claim C1: on a row carrying both `vessel_id` and `job_id`,
`get_tracking_key` returns exactly `vessel_id_{vessel_id}__job_id_{job_id}`;
the function is deterministic (rows with equal id cells give equal keys)
and the key is injective over `(vessel_id, job_id)` pairs. -/
theorem c1_tracking_key_format_det_inj (row row2 : PyRow) (v j : Int)
    (hv : pyGet row ("vessel_id") = some (PyVal.i v))
    (hj : pyGet row ("job_id") = some (PyVal.i j)) :
    get_tracking_key row =
      Except.ok (("vessel_id_") ++ pyIntRepr v ++ ("__job_id_") ++ pyIntRepr j)
    ∧ (pyGet row2 ("vessel_id") = pyGet row ("vessel_id") →
       pyGet row2 ("job_id") = pyGet row ("job_id") →
       get_tracking_key row2 = get_tracking_key row)
    ∧ (∀ v' j', trackingKey (PyVal.i v) (PyVal.i j) =
        trackingKey (PyVal.i v') (PyVal.i j') → v = v' ∧ j = j') := by
  refine ⟨?_, ?_, ?_⟩
  · simp [get_tracking_key, hv, hj, trackingKey, pyStr]
  · intro h1 h2
    simp [get_tracking_key, h1, h2, hv, hj]
  · intro v' j' h
    exact trackingKey_int_inj h

theorem c1_witness :
    get_tracking_key
        [(("vessel_id"), PyVal.i 7), (("job_id"), PyVal.i 123)] =
      Except.ok (("vessel_id_7__job_id_123")) :=
  (c1_tracking_key_format_det_inj
    [(("vessel_id"), PyVal.i 7), (("job_id"), PyVal.i 123)]
    [(("vessel_id"), PyVal.i 7), (("job_id"), PyVal.i 123)]
    7 123 (by decide) (by decide)).1

/-- Claim C2: a row missing `vessel_id` (or missing `job_id`) makes
`get_tracking_key` fail with an error naming the missing field and carrying
the row's available columns; the error is the function's result (the raise
propagates), never a silent omission. -/
theorem c2_missing_field_error (row : PyRow) :
    (pyGet row ("vessel_id") = Option.none →
      get_tracking_key row = Except.error ⟨("vessel_id"), rowColumns row⟩)
    ∧ (∀ x, pyGet row ("vessel_id") = some x →
        pyGet row ("job_id") = Option.none →
        get_tracking_key row = Except.error ⟨("job_id"), rowColumns row⟩)
    ∧ ((pyGet row ("vessel_id") = Option.none ∨
        pyGet row ("job_id") = Option.none) →
       ∃ err, get_tracking_key row = Except.error err ∧
         err.available = rowColumns row ∧
         (err.missing = ("vessel_id") ∨ err.missing = ("job_id"))) := by
  refine ⟨?_, ?_, ?_⟩
  · intro h
    simp [get_tracking_key, h]
  · intro x hx h
    simp [get_tracking_key, hx, h]
  · intro h
    rcases hv : pyGet row ("vessel_id") with _ | x
    · exact ⟨⟨("vessel_id"), rowColumns row⟩, by simp [get_tracking_key, hv],
        rfl, Or.inl rfl⟩
    · rcases h with h | h
      · exact absurd hv (h ▸ by simp)
      · exact ⟨⟨("job_id"), rowColumns row⟩, by simp [get_tracking_key, hv, h],
          rfl, Or.inr rfl⟩

theorem c2_witness :
    get_tracking_key [(("vessel"), PyVal.s ("MV Test")), (("job_id"), PyVal.i 1)] =
      Except.error ⟨("vessel_id"), [("vessel"), ("job_id")]⟩ :=
  (c2_missing_field_error
    [(("vessel"), PyVal.s ("MV Test")), (("job_id"), PyVal.i 1)]).1 (by decide)

/-- Claim C3: `_get_cc_recipients` lower-cases the address, scans the
routing table in configured order taking the CC list of the first domain
occurring inside the lowered address, uses the empty list when nothing
matches, and always returns the deduplicated union with the internal
recipients; instantiated on the spec's example table. -/
theorem c3_cc_recipients :
    (∀ (cfg : AlertConfig) (email : String),
      (∀ pre d cc post, cfg.email_routing = pre ++ (d, cc) :: post →
        (∀ p ∈ pre, ¬ pyIn (pyLower p.1) (pyLower email)) →
        pyIn (pyLower d) (pyLower email) →
        _get_cc_recipients cfg email =
          (cc ++ cfg.internal_recipients).toFinset)
      ∧ ((∀ p ∈ cfg.email_routing, ¬ pyIn (pyLower p.1) (pyLower email)) →
        _get_cc_recipients cfg email = cfg.internal_recipients.toFinset))
    ∧ _get_cc_recipients cfgSea ("capt@seatraders.com") =
        ({("a@x"), ("b@y")} : Finset String)
    ∧ _get_cc_recipients cfgSea ("capt@other.com") =
        ({("b@y")} : Finset String) := by
  refine ⟨fun cfg email => ⟨?_, ?_⟩, by decide, by decide⟩
  · intro pre d cc post hsplit hpre hd
    have hscan : ccScan cfg.email_routing (pyLower email) = cc := by
      rw [hsplit]
      exact ccScan_first_match (pyLower email) d cc pre post hpre hd
    simp [_get_cc_recipients, hscan]
  · intro hnone
    have hscan : ccScan cfg.email_routing (pyLower email) = [] :=
      ccScan_no_match (pyLower email) cfg.email_routing hnone
    simp [_get_cc_recipients, hscan]

theorem c3_witness :
    _get_cc_recipients cfgSea ("capt@seatraders.com") =
      ([("a@x")] ++ [("b@y")]).toFinset :=
  ((c3_cc_recipients.1 cfgSea ("capt@seatraders.com")).1
    [] ("seatraders.com") [("a@x")] [] rfl (by simp) (by decide))

/-- Claim C4: `filter_data` treats a tz-naive `created_at` column as UTC
and converts it, and converts an already-aware column directly; the stored
instants are unchanged either way, so the filtered and formatted output
does not depend on the column's incoming tz state.  In particular the
naive instant 2024-01-01T00:00:00 and the explicit 2024-01-01T00:00:00Z
(both `i8 = 1704067200000000`) yield identical results. -/
theorem c4_timezone_normalization :
    (∀ (cfg : AlertConfig) (nowUtc : Int) (rows : List RawRow)
       (t1 t2 : Option Int),
      (filter_data cfg nowUtc ⟨t1, rows⟩).2 =
        (filter_data cfg nowUtc ⟨t2, rows⟩).2)
    ∧ (filter_data cfgSea 1704067200000000 ⟨Option.none, [rowJan1]⟩).2 =
        (filter_data cfgSea 1704067200000000 ⟨some 0, [rowJan1]⟩).2 := by
  have hgen : ∀ (cfg : AlertConfig) (nowUtc : Int) (rows : List RawRow)
      (t1 t2 : Option Int),
      (filter_data cfg nowUtc ⟨t1, rows⟩).2 =
        (filter_data cfg nowUtc ⟨t2, rows⟩).2 := by
    intro cfg nowUtc rows t1 t2
    by_cases h : rows = []
    · simp [filter_data, h]
    · cases t1 <;> cases t2 <;>
        simp [filter_data, h, pd_to_datetime, tz_convert, tz_localize_utc]
  exact ⟨hgen, hgen cfgSea 1704067200000000 [rowJan1] Option.none (some 0)⟩

/-- Claim C5: `filter_data` retains exactly the rows whose (normalized)
`created_at` instant is at or after `now - lookback_days`; a row exactly at
the cutoff is kept, a row one microsecond earlier is dropped. -/
theorem c5_recency_cutoff :
    (∀ (cfg : AlertConfig) (nowUtc : Int) (df : DataFrame),
      (filter_data cfg nowUtc df).2 =
        (df.rows.filter (fun r =>
          decide (nowUtc - cfg.lookback_days * usecPerDay ≤ r.created_at))).map
          (fmtOutRow cfg.tzOffset))
    ∧ (∀ (cfg : AlertConfig) (nowUtc : Int) (r : RawRow),
        r.created_at = nowUtc - cfg.lookback_days * usecPerDay →
        (filter_data cfg nowUtc ⟨some cfg.tzOffset, [r]⟩).2 =
          [fmtOutRow cfg.tzOffset r])
    ∧ (∀ (cfg : AlertConfig) (nowUtc : Int) (r : RawRow),
        r.created_at = nowUtc - cfg.lookback_days * usecPerDay - 1 →
        (filter_data cfg nowUtc ⟨some cfg.tzOffset, [r]⟩).2 = []) := by
  have hgen : ∀ (cfg : AlertConfig) (nowUtc : Int) (df : DataFrame),
      (filter_data cfg nowUtc df).2 =
        (df.rows.filter (fun r =>
          decide (nowUtc - cfg.lookback_days * usecPerDay ≤ r.created_at))).map
          (fmtOutRow cfg.tzOffset) := by
    intro cfg nowUtc df
    by_cases h : df.rows = []
    · simp [filter_data, h]
    · cases ht : df.createdAtTz <;>
        simp [filter_data, h, ht, pd_to_datetime, tz_convert, tz_localize_utc]
  refine ⟨hgen, ?_, ?_⟩
  · intro cfg nowUtc r hr
    rw [hgen]
    simp only [List.filter_cons, List.filter_nil, decide_eq_true_eq]
    rw [if_pos (by omega)]
    simp
  · intro cfg nowUtc r hr
    rw [hgen]
    simp only [List.filter_cons, List.filter_nil, decide_eq_true_eq]
    rw [if_neg (by omega)]
    simp

theorem c5_witness :
    (filter_data cfgSea 1704326400000000
      ⟨some cfgSea.tzOffset, [rowJan1]⟩).2 = [fmtOutRow cfgSea.tzOffset rowJan1] :=
  c5_recency_cutoff.2.1 cfgSea 1704326400000000 rowJan1 (by decide)

/-- Claim C6: with `enable_links` false no job row carries a URL; with it
true every job row carries exactly
`base_url.rstrip('/') + url_path.rstrip('/') + '/' + job_id`; the spec's
example URL comes out as `https://h/jobs/x/123`. -/
theorem c6_url_links :
    (∀ (cfg : AlertConfig) (rows : List OutRow), cfg.enable_links = false →
      ∀ job ∈ route_notifications cfg rows, ∀ jr ∈ job.data,
        jr.url = Option.none)
    ∧ (∀ (cfg : AlertConfig) (rows : List OutRow), cfg.enable_links = true →
      ∀ job ∈ route_notifications cfg rows, ∀ jr ∈ job.data,
        jr.url = some (rstripSlash cfg.base_url ++ rstripSlash cfg.url_path ++
          ("/") ++ pyIntRepr jr.row.job_id))
    ∧ _get_url_links cfgLinks 123 = some (("https://h/jobs/x/123")) := by
  refine ⟨?_, ?_, by decide⟩
  · intro cfg rows h job hjob jr hjr
    unfold route_notifications at hjob
    rw [List.mem_map] at hjob
    obtain ⟨k, hk, rfl⟩ := hjob
    unfold mkJob at hjr
    simp only [h, Bool.false_eq_true, if_false, List.mem_map] at hjr
    obtain ⟨r, hr, rfl⟩ := hjr
    rfl
  · intro cfg rows h job hjob jr hjr
    unfold route_notifications at hjob
    rw [List.mem_map] at hjob
    obtain ⟨k, hk, rfl⟩ := hjob
    unfold mkJob at hjr
    simp only [h, if_true, List.mem_map] at hjr
    obtain ⟨r, hr, rfl⟩ := hjr
    simp [_get_url_links, h]

theorem c6_witness :
    (JobRow.mk (fmtOutRow cfgSea.tzOffset rowJan1) Option.none).url =
      Option.none :=
  (c6_url_links.1 cfgSea [fmtOutRow cfgSea.tzOffset rowJan1] rfl
    (mkJob cfgSea [fmtOutRow cfgSea.tzOffset rowJan1]
      ((("master@seatraders.com"), ("MV Test"))))
    (by decide)
    (JobRow.mk (fmtOutRow cfgSea.tzOffset rowJan1) Option.none)
    (by decide))

/-- Claim C7: `route_notifications` emits exactly one job per distinct
`(vsl_email, vessel)` pair of the input, and that job's data is precisely
the input rows with that pair, in input order. -/
theorem c7_grouping (cfg : AlertConfig) (rows : List OutRow) (e v : String) :
    ((e, v) ∈ rows.map groupKey →
      (route_notifications cfg rows).filter
        (fun j => decide (j.recipients = [e] ∧ j.vessel_name = v)) =
        [mkJob cfg rows (e, v)])
    ∧ ((e, v) ∉ rows.map groupKey →
      (route_notifications cfg rows).filter
        (fun j => decide (j.recipients = [e] ∧ j.vessel_name = v)) = [])
    ∧ (mkJob cfg rows (e, v)).data.map JobRow.row =
        rows.filter (fun r => decide (groupKey r = (e, v))) := by
  have hpred : ∀ k : String × String,
      (decide ((mkJob cfg rows k).recipients = [e] ∧
        (mkJob cfg rows k).vessel_name = v)) = decide (k = (e, v)) := by
    intro k
    cases k with
    | mk k1 k2 => simp [mkJob, Prod.ext_iff]
  have hroute : (route_notifications cfg rows).filter
      (fun j => decide (j.recipients = [e] ∧ j.vessel_name = v)) =
      ((distinctKeys (rows.map groupKey)).filter
        (fun k => decide (k = (e, v)))).map (mkJob cfg rows) := by
    unfold route_notifications
    rw [filter_of_map]
    congr 1
    exact List.filter_congr (fun k _ => hpred k)
  refine ⟨?_, ?_, ?_⟩
  · intro hmem
    rw [hroute, filter_eq_singleton_of_nodup (e, v)
      (distinctKeys (rows.map groupKey))
      (nodup_distinctKeys (rows.map groupKey))
      ((mem_distinctKeys (e, v) (rows.map groupKey)).mpr hmem)]
    rfl
  · intro hnomem
    rw [hroute]
    have : (distinctKeys (rows.map groupKey)).filter
        (fun k => decide (k = (e, v))) = [] := by
      rw [List.filter_eq_nil_iff]
      intro k hk
      simp only [decide_eq_true_eq]
      intro hke
      exact hnomem (hke ▸ (mem_distinctKeys k (rows.map groupKey)).mp hk)
    rw [this]
    rfl
  · have hdata : (mkJob cfg rows (e, v)).data =
        if cfg.enable_links = true then
          (rows.filter (fun r => decide (groupKey r = (e, v)))).map
            (fun r => JobRow.mk r (_get_url_links cfg r.job_id))
        else
          (rows.filter (fun r => decide (groupKey r = (e, v)))).map
            (fun r => JobRow.mk r Option.none) := rfl
    rw [hdata]
    by_cases h : cfg.enable_links
    · rw [if_pos h, List.map_map]
      exact map_row_comp _ _
    · rw [if_neg h, List.map_map]
      exact map_row_comp _ _

theorem c7_witness :
    (route_notifications cfgSea [fmtOutRow cfgSea.tzOffset rowJan1]).filter
      (fun j => decide (j.recipients = [("master@seatraders.com")] ∧
        j.vessel_name = ("MV Test"))) =
      [mkJob cfgSea [fmtOutRow cfgSea.tzOffset rowJan1]
        ((("master@seatraders.com"), ("MV Test")))] :=
  (c7_grouping cfgSea [fmtOutRow cfgSea.tzOffset rowJan1]
    ("master@seatraders.com") ("MV Test")).1 (by decide)

/-- Claim C8: running filter-and-route a second time on the frame exactly
as the first run leaves it (the in-place tz normalization included) yields
the same filtered rows, the same frame state, and the same job list. -/
theorem c8_idempotent (cfg : AlertConfig) (nowUtc : Int) (df : DataFrame) :
    (filter_data cfg nowUtc (filter_data cfg nowUtc df).1).2 =
      (filter_data cfg nowUtc df).2
    ∧ (filter_data cfg nowUtc (filter_data cfg nowUtc df).1).1 =
      (filter_data cfg nowUtc df).1
    ∧ route_notifications cfg
        (filter_data cfg nowUtc (filter_data cfg nowUtc df).1).2 =
      route_notifications cfg (filter_data cfg nowUtc df).2 := by
  by_cases h : df.rows = []
  · have h1 : filter_data cfg nowUtc df = (df, []) := by
      simp [filter_data, h]
    rw [h1]
    exact ⟨by rw [h1], by rw [h1], by rw [h1]⟩
  · have h1 : (filter_data cfg nowUtc df).1 =
        ⟨some cfg.tzOffset, df.rows⟩ := by
      cases ht : df.createdAtTz <;>
        simp [filter_data, h, ht, pd_to_datetime, tz_convert, tz_localize_utc]
    have h2 : (filter_data cfg nowUtc df).2 =
        (df.rows.filter (fun r =>
          decide (nowUtc - cfg.lookback_days * usecPerDay ≤ r.created_at))).map
          (fmtOutRow cfg.tzOffset) := by
      cases ht : df.createdAtTz <;>
        simp [filter_data, h, ht, pd_to_datetime, tz_convert, tz_localize_utc]
    have h3 : filter_data cfg nowUtc (⟨some cfg.tzOffset, df.rows⟩ : DataFrame) =
        (⟨some cfg.tzOffset, df.rows⟩,
         (df.rows.filter (fun r =>
           decide (nowUtc - cfg.lookback_days * usecPerDay ≤ r.created_at))).map
           (fmtOutRow cfg.tzOffset)) := by
      simp [filter_data, h, pd_to_datetime, tz_convert, tz_localize_utc]
    rw [h1, h3, h2]
    exact ⟨rfl, rfl, rfl⟩

/-- Claim C9: an empty input frame passes through `filter_data` untouched
(no tz conversion is attempted: the frame, its tz state included, is
returned as-is with no output rows), and routing an empty row set yields
zero jobs; no error is possible (the functions are total). -/
theorem c9_empty_input (cfg : AlertConfig) (nowUtc : Int) (df : DataFrame)
    (h : df.rows = []) :
    filter_data cfg nowUtc df = (df, []) ∧
    route_notifications cfg [] = [] :=
  ⟨by simp [filter_data, h], rfl⟩

theorem c9_witness :
    filter_data cfgSea 1704067200000000 ⟨Option.none, []⟩ =
      (⟨Option.none, []⟩, []) ∧
    route_notifications cfgSea [] = [] :=
  c9_empty_input cfgSea 1704067200000000 ⟨Option.none, []⟩ rfl

/-- Claim C10: `_get_company_name` is total and returns the Sea Traders
label exactly when the lowered email contains `seatraders` but not
`prominence`; in every other case, the no-match fallback included, it
returns the Prominence label. -/
theorem c10_company_name (vessel_email : String) :
    _get_company_name vessel_email =
      if pyIn ("seatraders") (pyLower vessel_email) ∧
         ¬ pyIn ("prominence") (pyLower vessel_email)
      then ("Sea Traders S.A.") else ("Prominence Maritime S.A.") := by
  unfold _get_company_name
  by_cases hp : pyIn ("prominence") (pyLower vessel_email) <;>
    by_cases hs : pyIn ("seatraders") (pyLower vessel_email) <;>
    simp [hp, hs]

end FlagDispensations
